import Mathlib

/-!
Verification of the collaborative document editing backend
(`server.ts`, transpiled copy, and `fileStorage` utility).

The embedding models the version-ledger helpers (`createDocumentVersion`,
`addDocumentVersion`, `createAutoSnapshot`), the socket handlers
(`join-document`, `document-change`) and the HTTP handlers for reading a
document, listing/reading versions and restoring a version, with:
- `Date` values as `Nat` epoch milliseconds; all `new Date()` calls inside
  one handler invocation are modelled as a single instant `now`;
- `uuidv4()` results as explicit `String` parameters (`freshId`, ...);
- JavaScript `Array.prototype.sort` (stable since ES2019) with comparator
  `(a, b) => b.createdAt.getTime() - a.createdAt.getTime()` as a stable
  insertion sort, descending by `createdAt`;
- the file-backed persistence (`loadDocument` / `saveDocument`) and the
  in-memory `documentsCache` as association lists keyed by document id.
-/

namespace Backend

/-- `StoredDocumentVersion`: immutable content snapshot. -/
structure DocumentVersion where
  id : String
  content : String
  createdAt : Nat
  authorId : String
  authorName : String
  changeDescription : Option String
deriving DecidableEq, Repr

/-- `StoredDocument`: the persisted document entity. -/
structure Document where
  id : String
  title : String
  content : String
  ownerId : String
  collaborators : List String
  createdAt : Nat
  updatedAt : Nat
  versions : List DocumentVersion
deriving DecidableEq, Repr

/-- The authenticated `{id, name}` principal attached to a connection. -/
structure Principal where
  id : String
  name : String
deriving DecidableEq, Repr

/-! ### JavaScript `String.prototype.includes` -/

/-- Does the character list `b` start with the character list `a`? -/
def charsStart : List Char → List Char → Bool
  | [], _ => true
  | _ :: _, [] => false
  | a :: as, b :: bs => a == b && charsStart as bs

/-- Does the second character list contain `pat` as a contiguous run? -/
def charsIncl (pat : List Char) : List Char → Bool
  | [] => charsStart pat []
  | c :: rest => charsStart pat (c :: rest) || charsIncl pat rest

/-- JavaScript `s.includes(pat)`. -/
def strIncludes (s pat : String) : Bool :=
  charsIncl pat.toList s.toList

/-! ### The version ledger (`addDocumentVersion` and friends) -/

/-- One step of the stable descending insertion sort: insert `v` in front of
the first element whose `createdAt` is not larger, so that elements already
in the list keep their relative order on ties (as the ES2019 stable
`Array.prototype.sort` does for the comparator
`(a, b) => b.createdAt - a.createdAt`). -/
def insertVersionDesc (v : DocumentVersion) : List DocumentVersion → List DocumentVersion
  | [] => [v]
  | w :: ws =>
    if w.createdAt ≤ v.createdAt then v :: w :: ws
    else w :: insertVersionDesc v ws

/-- `versions.sort((a, b) => b.createdAt.getTime() - a.createdAt.getTime())`
as a stable sort, newest first. -/
def sortVersionsDesc : List DocumentVersion → List DocumentVersion
  | [] => []
  | v :: vs => insertVersionDesc v (sortVersionsDesc vs)

/-- `createDocumentVersion(document, content, authorId, authorName,
changeDescription)`: builds the snapshot record; the fresh uuid and the
current time are explicit parameters. -/
def createDocumentVersion (_document : Document) (content authorId authorName : String)
    (changeDescription : Option String) (freshId : String) (now : Nat) : DocumentVersion :=
  { id := freshId, content := content, createdAt := now, authorId := authorId,
    authorName := authorName, changeDescription := changeDescription }

/-- `addDocumentVersion(document, version, maxVersions = 50)`: push the new
version, sort newest-first, truncate to `maxVersions` entries when the list
got longer than that, and refresh `updatedAt`. -/
def addDocumentVersion (doc : Document) (version : DocumentVersion) (now : Nat)
    (maxVersions : Nat := 50) : Document :=
  let sorted := sortVersionsDesc (doc.versions ++ [version])
  let limited := if maxVersions < sorted.length then sorted.take maxVersions else sorted
  { doc with versions := limited, updatedAt := now }

/-! ### The automatic snapshot policy (`createAutoSnapshot`) -/

/-- The 30-minute cool-down window, in milliseconds. -/
def autoSnapshotCooldownMs : Nat := 30 * 60 * 1000

/-- The search predicate of `createAutoSnapshot`:
`v.changeDescription?.includes('Auto-snapshot') && v.authorId === authorId`. -/
def isAutoSnapshotBy (authorId : String) (v : DocumentVersion) : Bool :=
  (match v.changeDescription with
   | some d => strIncludes d "Auto-snapshot"
   | none => false) && v.authorId == authorId

/-- The guard of `createAutoSnapshot`: fire when no previous auto-snapshot by
this author is found, or the found one (the first match in the newest-first
list) is more than 30 minutes old. -/
def shouldCreateSnapshot (doc : Document) (authorId : String) (now : Nat) : Bool :=
  match doc.versions.find? (isAutoSnapshotBy authorId) with
  | none => true
  | some lastSnapshot => decide (autoSnapshotCooldownMs < now - lastSnapshot.createdAt)

/-- `createAutoSnapshot(document, authorId, authorName)`: commit an
`'Auto-snapshot'` version of the current content when the guard fires. -/
def createAutoSnapshot (doc : Document) (authorId authorName : String)
    (snapId : String) (now : Nat) : Document :=
  if shouldCreateSnapshot doc authorId now then
    addDocumentVersion doc
      (createDocumentVersion doc doc.content authorId authorName (some "Auto-snapshot") snapId now)
      now
  else doc

/-- Number of versions of `doc` that the auto-snapshot search predicate
matches for `authorId`. -/
def autoCount (doc : Document) (authorId : String) : Nat :=
  doc.versions.countP (isAutoSnapshotBy authorId)

/-- The newest-first ordering relation on snapshots. -/
def DescOrd (a b : DocumentVersion) : Prop := b.createdAt ≤ a.createdAt

/-! ### The server state: file store and in-memory cache -/

/-- `Map.set` / file overwrite on an association list keyed by `String`. -/
def mapSet {α : Type} (m : List (String × α)) (k : String) (a : α) : List (String × α) :=
  (k, a) :: m.filter (fun p => p.1 != k)

/-- `Map.get` / `loadDocument`-style lookup on an association list. -/
def mapGet {α : Type} (m : List (String × α)) (k : String) : Option α :=
  (m.find? (fun p => p.1 == k)).map (fun p => p.2)

abbrev Store := List (String × Document)

/-- The process state seen by the HTTP handlers: the `documentsCache` map and
the file-backed persistence store. -/
structure ServerState where
  documentsCache : Store
  store : Store
deriving DecidableEq, Repr

/-! ### `document-change` (ApplyChange) -/

/-- Payload of the `document-updated` broadcast. -/
structure UpdateEvent where
  content : String
  updatedBy : String
  updatedAt : Nat
deriving DecidableEq, Repr

/-- The pure core of the `document-change` socket handler: version creation
(only when the content actually changed), auto-snapshot check, then the
unconditional rebuild of `updatedDocument` with the incoming content and a
fresh `updatedAt`, paired with the unconditionally emitted
`document-updated` payload. No access check appears in the source handler. -/
def documentChangeCore (doc : Document) (user : Principal) (content : String)
    (manualId snapId : String) (now : Nat) : Document × UpdateEvent :=
  let doc1 :=
    if content ≠ doc.content then
      let version := createDocumentVersion doc content user.id user.name (some "Manual save") manualId now
      let doc' := addDocumentVersion doc version now
      createAutoSnapshot doc' user.id user.name snapId now
    else doc
  ({ doc1 with content := content, updatedAt := now },
   { content := content, updatedBy := user.name, updatedAt := now })

/-- The `document-change` handler end to end: `loadDocument`, the pure core,
`saveDocument(updatedDocument)`, and the emitted `document-updated` payload
(`none` only when the document does not exist; the handler returns early
and silently in that case). The `documentsCache` is not touched. -/
def documentChangeEndpoint (st : ServerState) (user : Principal) (documentId content : String)
    (manualId snapId : String) (now : Nat) : ServerState × Option UpdateEvent :=
  match mapGet st.store documentId with
  | none => (st, none)
  | some doc =>
    let result := documentChangeCore doc user content manualId snapId now
    ({ st with store := mapSet st.store result.1.id result.1 }, some result.2)

/-! ### Rooms, `join-document`, and broadcast targets -/

/-- A live collaboration room: `members` are the socket ids that executed
`socket.join(documentId)`; `users` is the handler-level `room.users` map. -/
structure Room where
  documentId : String
  members : List String
  users : List (String × Principal)
deriving DecidableEq, Repr

inductive JoinResult where
  | errNotFound
  | errAccessDenied
  | joined (rooms' : List (String × Room)) (room' : Room)
deriving DecidableEq, Repr

/-- The `join-document` socket handler: load the document, enforce
`ownerId !== user.id && !collaborators.includes(user.id)`, then join the
socket.io room, get-or-create the registry room and register the user. -/
def joinDocument (store : Store) (rooms : List (String × Room)) (socketId : String)
    (user : Principal) (documentId : String) : JoinResult :=
  match mapGet store documentId with
  | none => .errNotFound
  | some doc =>
    if doc.ownerId != user.id && !(doc.collaborators.contains user.id) then .errAccessDenied
    else
      let base : Room := match mapGet rooms documentId with
        | none => { documentId := documentId, members := [], users := [] }
        | some r => r
      let room' : Room :=
        { base with members := base.members ++ [socketId],
                    users := mapSet base.users socketId user }
      .joined (mapSet rooms documentId room') room'

/-- Recipient set of `io.to(documentId).emit(...)`: every socket that joined
the room, the sender included. -/
def ioToRecipients (rooms : List (String × Room)) (documentId : String) : List String :=
  match mapGet rooms documentId with
  | none => []
  | some r => r.members

/-- The `document-updated` fan-out of the `document-change` handler:
`io.to(documentId).emit('document-updated', ev)` delivers `ev` to every
member of the room. -/
def documentChangeBroadcast (rooms : List (String × Room)) (documentId : String)
    (ev : UpdateEvent) : List (String × UpdateEvent) :=
  (ioToRecipients rooms documentId).map (fun s => (s, ev))

/-! ### Access helpers -/

/-- The read/write access rule used by the guarded handlers:
owner or collaborator. -/
def hasAccess (doc : Document) (userId : String) : Bool :=
  doc.ownerId == userId || doc.collaborators.contains userId

/-- The owner-only guard of the add/remove-collaborator (and delete)
endpoints: `document.ownerId !== user.id` rejects, so exactly the owner
passes. -/
def canManageCollaborators (doc : Document) (userId : String) : Bool :=
  doc.ownerId == userId

/-! ### `GET /api/documents/:id` -/

inductive ReadResult where
  | notFound
  | accessDenied
  | ok (doc : Document)
deriving DecidableEq, Repr

/-- `GET /api/documents/:id`: the handler reads `documentsCache.get(id)`
only — it never calls `loadDocument` — then applies the access guard. -/
def getDocumentEndpoint (st : ServerState) (docId userId : String) : ReadResult :=
  match mapGet st.documentsCache docId with
  | none => .notFound
  | some doc =>
    if doc.ownerId != userId && !(doc.collaborators.contains userId) then .accessDenied
    else .ok doc

/-! ### Version read APIs -/

/-- One entry of the version list response; `isAutoSnapshot` is computed as
`v.changeDescription?.includes('Auto snapshot')` (note the space), which is
`none` (field absent) when there is no description. -/
structure VersionView where
  id : String
  content : String
  createdAt : Nat
  authorId : String
  authorName : String
  changeDescription : Option String
  isAutoSnapshot : Option Bool
deriving DecidableEq, Repr

def versionView (v : DocumentVersion) : VersionView :=
  { id := v.id, content := v.content, createdAt := v.createdAt, authorId := v.authorId,
    authorName := v.authorName, changeDescription := v.changeDescription,
    isAutoSnapshot := v.changeDescription.map (fun d => strIncludes d "Auto snapshot") }

inductive VersionsResult where
  | notFound
  | ok (documentId : String) (versions : List VersionView)
deriving DecidableEq, Repr

/-- `GET /api/documents/:id/versions`: no authentication middleware and no
access check — the handler takes no requesting user at all. -/
def listVersionsEndpoint (store : Store) (docId : String) : VersionsResult :=
  match mapGet store docId with
  | none => .notFound
  | some doc => .ok docId (doc.versions.map versionView)

inductive VersionResult where
  | notFound
  | versionNotFound
  | ok (v : VersionView)
deriving DecidableEq, Repr

/-- `GET /api/documents/:id/versions/:versionId`: also unauthenticated. -/
def getVersionEndpoint (store : Store) (docId versionId : String) : VersionResult :=
  match mapGet store docId with
  | none => .notFound
  | some doc =>
    match doc.versions.find? (fun v => v.id == versionId) with
    | none => .versionNotFound
    | some v => .ok (versionView v)

/-! ### `POST /api/documents/:id/restore/:versionId` -/

inductive RestoreResult where
  | notFound
  | accessDenied
  | versionNotFound
  | restored (fromVersion : DocumentVersion)
deriving DecidableEq, Repr

/-- The defensive pre-restore snapshot committed before the content is
overwritten (`toLocaleString` of the target timestamp is rendered as the
decimal millisecond count). -/
def preRestoreVersion (doc : Document) (user : Principal) (target : DocumentVersion)
    (freshId : String) (now : Nat) : DocumentVersion :=
  createDocumentVersion doc doc.content user.id user.name
    (some ("Auto-save before restoring to version from " ++ toString target.createdAt))
    freshId now

/-- The restore handler: load, access guard, locate the target version
(not-found aborts with no state change), commit the pre-restore snapshot,
overwrite the content, save and cache the result. -/
def restoreEndpoint (st : ServerState) (user : Principal) (docId versionId freshId : String)
    (now : Nat) : ServerState × RestoreResult :=
  match mapGet st.store docId with
  | none => (st, .notFound)
  | some doc =>
    if doc.ownerId != user.id && !(doc.collaborators.contains user.id) then (st, .accessDenied)
    else
      match doc.versions.find? (fun v => v.id == versionId) with
      | none => (st, .versionNotFound)
      | some version =>
        let doc1 := addDocumentVersion doc (preRestoreVersion doc user version freshId now) now
        let doc2 := { doc1 with content := version.content, updatedAt := now }
        ({ documentsCache := mapSet st.documentsCache docId doc2,
           store := mapSet st.store doc2.id doc2 },
         .restored version)

/-! ### Concrete fixtures -/

def docX10 : Document :=
  { id := "d10", title := "T", content := "c", ownerId := "A", collaborators := [],
    createdAt := 0, updatedAt := 0, versions := [] }

def vTie1 : DocumentVersion :=
  { id := "w1", content := "a", createdAt := 100, authorId := "A", authorName := "Al",
    changeDescription := none }

def vTie2 : DocumentVersion :=
  { id := "w2", content := "b", createdAt := 100, authorId := "A", authorName := "Al",
    changeDescription := none }

def docTie : Document :=
  { id := "d6", title := "T", content := "c", ownerId := "A", collaborators := [],
    createdAt := 0, updatedAt := 0, versions := [vTie1] }

def docC4 : Document :=
  { id := "d4", title := "T", content := "c", ownerId := "A", collaborators := [],
    createdAt := 0, updatedAt := 0, versions := [] }

/-! ### C2 -/

def vInit2 : DocumentVersion :=
  { id := "v2", content := "same", createdAt := 1, authorId := "A", authorName := "Alice",
    changeDescription := some "Initial version" }

def docC2 : Document :=
  { id := "d2", title := "T", content := "same", ownerId := "A", collaborators := [],
    createdAt := 0, updatedAt := 3, versions := [vInit2] }

def stC2 : ServerState := { documentsCache := [], store := [("d2", docC2)] }

/-! ### C1 -/

def vAutoOld : DocumentVersion :=
  { id := "v0", content := "older", createdAt := 1000, authorId := "A", authorName := "Alice",
    changeDescription := some "Auto-snapshot" }

def docC1 : Document :=
  { id := "d1", title := "T", content := "<p>old</p>", ownerId := "A", collaborators := [],
    createdAt := 0, updatedAt := 1000, versions := [vAutoOld] }

def docC1b : Document :=
  { id := "d1b", title := "T", content := "o", ownerId := "A", collaborators := [],
    createdAt := 0, updatedAt := 0, versions := [] }

/-! ### C3 -/

def vInit3 : DocumentVersion :=
  { id := "v1", content := "x", createdAt := 10, authorId := "A", authorName := "Alice",
    changeDescription := some "Initial version" }

def docC3 : Document :=
  { id := "d3", title := "T", content := "x", ownerId := "A", collaborators := ["B"],
    createdAt := 0, updatedAt := 10, versions := [vInit3] }

def stC3 : ServerState := { documentsCache := [("d3", docC3)], store := [("d3", docC3)] }

def userS : Principal := { id := "S", name := "Sam" }

def userA8 : Principal := { id := "A", name := "Alice" }

def vInit8 : DocumentVersion :=
  { id := "v1", content := "x", createdAt := 10, authorId := "A", authorName := "Alice",
    changeDescription := some "Initial version" }

def docC8 : Document :=
  { id := "d8", title := "T", content := "cur", ownerId := "A", collaborators := [],
    createdAt := 0, updatedAt := 10, versions := [vInit8] }

def stC8 : ServerState := { documentsCache := [], store := [("d8", docC8)] }

def userA9 : Principal := { id := "A", name := "Alice" }

def docC9 : Document :=
  { id := "d9", title := "T", content := "o", ownerId := "A", collaborators := [],
    createdAt := 0, updatedAt := 0, versions := [] }

def stC9 : ServerState := { documentsCache := [], store := [("d9", docC9)] }

def roomC9 : Room :=
  { documentId := "d9", members := ["sock1"], users := [("sock1", userA9)] }

def docC7w : Document :=
  { id := "d7", title := "T", content := "o", ownerId := "A", collaborators := [],
    createdAt := 0, updatedAt := 0, versions := [] }

/-! ### Basic lemmas about the stable descending sort -/

theorem insertVersionDesc_perm (v : DocumentVersion) (l : List DocumentVersion) :
    (insertVersionDesc v l).Perm (v :: l) := by
  induction l with
  | nil => simp [insertVersionDesc]
  | cons w ws ih =>
    simp only [insertVersionDesc]
    split
    · exact List.Perm.refl _
    · exact (ih.cons w).trans (List.Perm.swap v w ws)

theorem sortVersionsDesc_perm (l : List DocumentVersion) :
    (sortVersionsDesc l).Perm l := by
  induction l with
  | nil => simp [sortVersionsDesc]
  | cons v vs ih =>
    simpa [sortVersionsDesc] using (insertVersionDesc_perm v (sortVersionsDesc vs)).trans (ih.cons v)

theorem pairwise_insertVersionDesc {v : DocumentVersion} {l : List DocumentVersion}
    (h : List.Pairwise DescOrd l) :
    List.Pairwise DescOrd (insertVersionDesc v l) := by
  induction l with
  | nil => simp [insertVersionDesc, List.Pairwise]
  | cons w ws ih =>
    rcases List.pairwise_cons.mp h with ⟨hw, hws⟩
    simp only [insertVersionDesc]
    split
    · rename_i hle
      refine List.pairwise_cons.mpr ⟨?_, h⟩
      intro x hx
      rcases List.mem_cons.mp hx with rfl | hx
      · exact hle
      · exact le_trans (hw x hx) hle
    · rename_i hgt
      refine List.pairwise_cons.mpr ⟨?_, ih hws⟩
      intro x hx
      have hx' := (insertVersionDesc_perm v ws).mem_iff.mp hx
      rcases List.mem_cons.mp hx' with rfl | hx'
      · exact le_of_lt (Nat.lt_of_not_le hgt)
      · exact hw x hx'

theorem pairwise_sortVersionsDesc (l : List DocumentVersion) :
    List.Pairwise DescOrd (sortVersionsDesc l) := by
  induction l with
  | nil => simp [sortVersionsDesc]
  | cons v vs ih => exact pairwise_insertVersionDesc ih

/-- When the new element is strictly newer than everything in the list, the
stable sort puts it first. -/
theorem sortVersionsDesc_append_newest {v : DocumentVersion} {l : List DocumentVersion}
    (h : ∀ w ∈ l, w.createdAt < v.createdAt) :
    sortVersionsDesc (l ++ [v]) = v :: sortVersionsDesc l := by
  induction l with
  | nil => simp [sortVersionsDesc, insertVersionDesc]
  | cons x xs ih =>
    have hx : x.createdAt < v.createdAt := h x (List.mem_cons_self x xs)
    have ih' := ih (fun w hw => h w (List.mem_cons_of_mem x hw))
    show insertVersionDesc x (sortVersionsDesc (xs ++ [v])) = v :: insertVersionDesc x (sortVersionsDesc xs)
    rw [ih']
    simp only [insertVersionDesc, if_neg (Nat.not_le.mpr hx)]

/-! ### Lemmas about `addDocumentVersion` -/

theorem addDocumentVersion_versions (doc : Document) (v : DocumentVersion) (now maxVersions : Nat) :
    (addDocumentVersion doc v now maxVersions).versions =
      (if maxVersions < (sortVersionsDesc (doc.versions ++ [v])).length
       then (sortVersionsDesc (doc.versions ++ [v])).take maxVersions
       else sortVersionsDesc (doc.versions ++ [v])) := rfl

/-- Without truncation, the committed list is just the sorted push. -/
theorem addDocumentVersion_versions_of_le {doc : Document} {v : DocumentVersion}
    {now maxVersions : Nat} (h : doc.versions.length + 1 ≤ maxVersions) :
    (addDocumentVersion doc v now maxVersions).versions = sortVersionsDesc (doc.versions ++ [v]) := by
  have hlen : (sortVersionsDesc (doc.versions ++ [v])).length = doc.versions.length + 1 := by
    simpa using (sortVersionsDesc_perm (doc.versions ++ [v])).length_eq
  rw [addDocumentVersion_versions, if_neg]
  rw [hlen]
  exact Nat.not_lt.mpr h

theorem addDocumentVersion_perm_of_le {doc : Document} {v : DocumentVersion}
    {now maxVersions : Nat} (h : doc.versions.length + 1 ≤ maxVersions) :
    ((addDocumentVersion doc v now maxVersions).versions).Perm (doc.versions ++ [v]) := by
  rw [addDocumentVersion_versions_of_le h]
  exact sortVersionsDesc_perm _

theorem addDocumentVersion_countP_of_le {doc : Document} {v : DocumentVersion}
    {now maxVersions : Nat} (h : doc.versions.length + 1 ≤ maxVersions)
    (p : DocumentVersion → Bool) :
    ((addDocumentVersion doc v now maxVersions).versions).countP p =
      doc.versions.countP p + (if p v then 1 else 0) := by
  have := (@addDocumentVersion_perm_of_le doc v now maxVersions h).countP_eq p
  rw [this, List.countP_append]
  simp [List.countP_cons]

theorem addDocumentVersion_content (doc : Document) (v : DocumentVersion) (now maxVersions : Nat) :
    (addDocumentVersion doc v now maxVersions).content = doc.content := rfl

theorem addDocumentVersion_sorted (doc : Document) (v : DocumentVersion) (now maxVersions : Nat) :
    List.Pairwise DescOrd (addDocumentVersion doc v now maxVersions).versions := by
  rw [addDocumentVersion_versions]
  split
  · exact (pairwise_sortVersionsDesc _).sublist (List.take_sublist _ _)
  · exact pairwise_sortVersionsDesc _

theorem mapGet_mapSet_self {α : Type} (m : List (String × α)) (k : String) (a : α) :
    mapGet (mapSet m k a) k = some a := by
  simp [mapGet, mapSet, List.find?_cons_of_pos]

theorem accessGuard_eq_not_hasAccess (doc : Document) (userId : String) :
    (doc.ownerId != userId && !(doc.collaborators.contains userId)) = !hasAccess doc userId := by
  simp [hasAccess, Bool.not_or, bne]

/-! ### C10 -/

/-- C10: `GET /api/documents/:id` consults only the in-memory cache, never the
persistence store; a document present in the store but absent from the cache
yields `404 Document not found`, even for its owner. -/
theorem getDocument_cache_only (st : ServerState) (docId userId : String) (doc : Document)
    (hcache : mapGet st.documentsCache docId = none)
    (hstore : mapGet st.store docId = some doc) :
    getDocumentEndpoint st docId userId = .notFound ∧
    getDocumentEndpoint st docId doc.ownerId = .notFound := by
  unfold getDocumentEndpoint
  rw [hcache]
  exact ⟨rfl, rfl⟩

theorem getDocument_cache_only_witness :
    getDocumentEndpoint (ServerState.mk [] [("d10", docX10)]) "d10" "Z" = .notFound ∧
    getDocumentEndpoint (ServerState.mk [] [("d10", docX10)]) "d10" docX10.ownerId = .notFound :=
  getDocument_cache_only (ServerState.mk [] [("d10", docX10)]) "d10" "Z" docX10 rfl (by decide)

/-! ### C5 -/

/-- C5: after any commit, the version list has length at most `maxVersions`
(default 50), is ordered newest-first by `createdAt`, and every dropped entry
is at most as recent as every retained one — the retained entries are the
`maxVersions` most recent by `createdAt`. -/
theorem versionLedger_cap_order_retention (doc : Document) (v : DocumentVersion)
    (now maxVersions : Nat) :
    (addDocumentVersion doc v now maxVersions).versions.length ≤ maxVersions ∧
    List.Pairwise DescOrd (addDocumentVersion doc v now maxVersions).versions ∧
    ∃ dropped : List DocumentVersion,
      ((addDocumentVersion doc v now maxVersions).versions ++ dropped).Perm (doc.versions ++ [v]) ∧
      ∀ w ∈ dropped, ∀ u ∈ (addDocumentVersion doc v now maxVersions).versions,
        w.createdAt ≤ u.createdAt := by
  have hperm : (sortVersionsDesc (doc.versions ++ [v])).Perm (doc.versions ++ [v]) :=
    sortVersionsDesc_perm _
  have hsorted : List.Pairwise DescOrd (sortVersionsDesc (doc.versions ++ [v])) :=
    pairwise_sortVersionsDesc _
  rw [addDocumentVersion_versions]
  by_cases hlt : maxVersions < (sortVersionsDesc (doc.versions ++ [v])).length
  · rw [if_pos hlt]
    have hsplit : (sortVersionsDesc (doc.versions ++ [v])).take maxVersions ++
        (sortVersionsDesc (doc.versions ++ [v])).drop maxVersions =
        sortVersionsDesc (doc.versions ++ [v]) := List.take_append_drop _ _
    refine ⟨?_, hsorted.sublist (List.take_sublist _ _),
      (sortVersionsDesc (doc.versions ++ [v])).drop maxVersions, ?_, ?_⟩
    · simp [List.length_take]
    · rw [hsplit]; exact hperm
    · have hcross := (List.pairwise_append.mp (hsplit ▸ hsorted)).2.2
      intro w hw u hu
      exact hcross u hu w hw
  · rw [if_neg hlt]
    refine ⟨Nat.le_of_not_lt hlt, hsorted, [], ?_, ?_⟩
    · rw [List.append_nil]; exact hperm
    · simp

/-! ### C6 -/

/-- C6 counterexample: with `maxVersions = 1` and an existing entry sharing
the new snapshot's `createdAt`, the stable sort places the freshly pushed
snapshot behind its tie and the truncation discards it. -/
theorem commit_discards_tied_snapshot :
    (1 : Nat) ≥ 1 ∧
    docTie.versions.length = 1 ∧
    vTie1.createdAt = vTie2.createdAt ∧
    (addDocumentVersion docTie vTie2 200 1).versions = [vTie1] ∧
    vTie2 ∉ (addDocumentVersion docTie vTie2 200 1).versions := by decide

/-- C6 amended: the snapshot passed to a commit is still present afterwards
provided `maxVersions ≥ 1` and either the list is strictly below the cap or
the snapshot's `createdAt` is strictly greater than every existing entry's;
when the list already holds `maxVersions` entries with `createdAt` equal to
(or above) the new snapshot's, the new snapshot can be truncated away. -/
theorem commit_keeps_snapshot (doc : Document) (v : DocumentVersion) (now maxVersions : Nat)
    (hmax : 1 ≤ maxVersions)
    (h : doc.versions.length < maxVersions ∨ ∀ w ∈ doc.versions, w.createdAt < v.createdAt) :
    v ∈ (addDocumentVersion doc v now maxVersions).versions := by
  rcases h with h | h
  · exact (addDocumentVersion_perm_of_le h).mem_iff.mpr (by simp)
  · rw [addDocumentVersion_versions, sortVersionsDesc_append_newest h]
    cases maxVersions with
    | zero => exact absurd hmax (by decide)
    | succ k =>
      split
      · simp [List.take_succ_cons]
      · simp

theorem commit_keeps_snapshot_witness :
    vTie2 ∈ (addDocumentVersion docTie vTie2 200 2).versions :=
  commit_keeps_snapshot docTie vTie2 200 2 (by decide) (Or.inl (by decide))

/-! ### C4 -/

/-- C4: the snapshot policy writes the literal tag `"Auto-snapshot"`, but the
version read APIs compute `isAutoSnapshot` by matching the substring
`"Auto snapshot"` (space instead of hyphen), so a policy-created
auto-snapshot is reported with `isAutoSnapshot = false`. -/
theorem autoSnapshot_tag_vs_read_marker :
    (createAutoSnapshot docC4 "A" "Alice" "s1" 100).versions.map
        (fun v => (v.changeDescription, (versionView v).isAutoSnapshot)) =
      [(some "Auto-snapshot", some false)] ∧
    strIncludes "Auto-snapshot" "Auto-snapshot" = true ∧
    strIncludes "Auto-snapshot" "Auto snapshot" = false := by decide

/-- C2 counterexample: a `document-change` whose content equals the stored
content creates no version, but the handler still overwrites `updatedAt`,
persists the document, and broadcasts `document-updated`. -/
theorem noop_change_still_persists_and_broadcasts :
    (documentChangeEndpoint stC2 ⟨"A", "Alice"⟩ "d2" "same" "m" "s" 5).1.store ≠ stC2.store ∧
    mapGet (documentChangeEndpoint stC2 ⟨"A", "Alice"⟩ "d2" "same" "m" "s" 5).1.store "d2"
      = some { docC2 with updatedAt := 5 } ∧
    docC2.updatedAt = 3 ∧
    (documentChangeEndpoint stC2 ⟨"A", "Alice"⟩ "d2" "same" "m" "s" 5).2 =
      some { content := "same", updatedBy := "Alice", updatedAt := 5 } ∧
    (mapGet (documentChangeEndpoint stC2 ⟨"A", "Alice"⟩ "d2" "same" "m" "s" 5).1.store "d2").map
      (fun d => d.versions.length) = some 1 := by decide

/-- C2 amended: a `document-change` with `newContent == currentContent`
leaves `versions` untouched, but is not a full no-op — the handler still
overwrites `updatedAt` with the current time, saves the document to the
store, and emits `document-updated`. -/
theorem noop_change_effects (st : ServerState) (user : Principal) (documentId content : String)
    (doc : Document) (manualId snapId : String) (now : Nat)
    (hdoc : mapGet st.store documentId = some doc)
    (hcontent : content = doc.content) :
    (documentChangeEndpoint st user documentId content manualId snapId now).1.store
      = mapSet st.store doc.id { doc with updatedAt := now } ∧
    mapGet (documentChangeEndpoint st user documentId content manualId snapId now).1.store doc.id
      = some { doc with updatedAt := now } ∧
    ({ doc with updatedAt := now } : Document).versions = doc.versions ∧
    (documentChangeEndpoint st user documentId content manualId snapId now).2 =
      some { content := content, updatedBy := user.name, updatedAt := now } := by
  subst hcontent
  unfold documentChangeEndpoint
  rw [hdoc]
  simp [documentChangeCore, mapGet_mapSet_self]

theorem noop_change_effects_witness :
    (documentChangeEndpoint stC2 ⟨"A", "Alice"⟩ "d2" "same" "m" "s" 5).1.store
      = mapSet stC2.store docC2.id { docC2 with updatedAt := 5 } ∧
    mapGet (documentChangeEndpoint stC2 ⟨"A", "Alice"⟩ "d2" "same" "m" "s" 5).1.store docC2.id
      = some { docC2 with updatedAt := 5 } ∧
    ({ docC2 with updatedAt := 5 } : Document).versions = docC2.versions ∧
    (documentChangeEndpoint stC2 ⟨"A", "Alice"⟩ "d2" "same" "m" "s" 5).2 =
      some { content := "same", updatedBy := "Alice", updatedAt := 5 } :=
  noop_change_effects stC2 ⟨"A", "Alice"⟩ "d2" "same" docC2 "m" "s" 5 (by decide) (by decide)

/-- C1 counterexample: an edit by A (who has a recent auto-snapshot, so the
policy does not fire) commits exactly one version, the `'Manual save'` one,
and it carries the NEW content; no committed version captures the previous
content `"<p>old</p>"`. -/
theorem change_version_not_previous_content :
    "<p>new</p>" ≠ docC1.content ∧
    ((documentChangeCore docC1 ⟨"A", "Alice"⟩ "<p>new</p>" "m1" "s1" 2000).1.versions.map
      (fun v => v.content)) = ["<p>new</p>", "older"] ∧
    (((documentChangeCore docC1 ⟨"A", "Alice"⟩ "<p>new</p>" "m1" "s1" 2000).1.versions.map
      (fun v => v.content)).contains "<p>old</p>") = false := by decide

/-- C1 amended: on a content-changing edit the committed `'Manual save'`
version captures the NEW content (not the previous one) with the editor as
author; the previous content is captured only when the auto-snapshot policy
fires, in which case the `'Auto-snapshot'` version carries the pre-edit
content with the editor as author. -/
theorem change_commits_new_content_version (doc : Document) (user : Principal)
    (content manualId snapId : String) (now : Nat)
    (hcontent : content ≠ doc.content)
    (hlen : doc.versions.length + 2 ≤ 50) :
    ({ id := manualId, content := content, createdAt := now, authorId := user.id,
       authorName := user.name, changeDescription := some "Manual save" } : DocumentVersion)
      ∈ (documentChangeCore doc user content manualId snapId now).1.versions ∧
    (shouldCreateSnapshot
        (addDocumentVersion doc
          (createDocumentVersion doc content user.id user.name (some "Manual save") manualId now)
          now)
        user.id now = true →
      ({ id := snapId, content := doc.content, createdAt := now, authorId := user.id,
         authorName := user.name, changeDescription := some "Auto-snapshot" } : DocumentVersion)
        ∈ (documentChangeCore doc user content manualId snapId now).1.versions) := by
  have hlen1 : doc.versions.length + 1 ≤ 50 := by omega
  simp only [documentChangeCore, if_pos hcontent]
  set manualV : DocumentVersion :=
    createDocumentVersion doc content user.id user.name (some "Manual save") manualId now with hm
  set doc' := addDocumentVersion doc manualV now with hd
  have hlen' : doc'.versions.length + 1 ≤ 50 := by
    have := (@addDocumentVersion_perm_of_le doc manualV now 50 hlen1).length_eq
    simp only [hd, this]
    simp only [List.length_append, List.length_cons, List.length_nil]
    omega
  have hmanual : manualV ∈ doc'.versions :=
    (addDocumentVersion_perm_of_le hlen1).mem_iff.mpr (by simp)
  constructor
  · show manualV ∈ (createAutoSnapshot doc' user.id user.name snapId now).versions
    unfold createAutoSnapshot
    split
    · exact (addDocumentVersion_perm_of_le hlen').mem_iff.mpr (List.mem_append_left _ hmanual)
    · exact hmanual
  · intro hguard
    show _ ∈ (createAutoSnapshot doc' user.id user.name snapId now).versions
    unfold createAutoSnapshot
    rw [if_pos hguard]
    have hcontent' : doc'.content = doc.content := rfl
    refine (addDocumentVersion_perm_of_le hlen').mem_iff.mpr (List.mem_append_right _ ?_)
    simp [createDocumentVersion, hcontent']

theorem change_commits_new_content_version_witness :
    ({ id := "m1", content := "n", createdAt := 7, authorId := "A",
       authorName := "Alice", changeDescription := some "Manual save" } : DocumentVersion)
      ∈ (documentChangeCore docC1b ⟨"A", "Alice"⟩ "n" "m1" "s1" 7).1.versions ∧
    ({ id := "s1", content := "o", createdAt := 7, authorId := "A",
       authorName := "Alice", changeDescription := some "Auto-snapshot" } : DocumentVersion)
      ∈ (documentChangeCore docC1b ⟨"A", "Alice"⟩ "n" "m1" "s1" 7).1.versions := by
  have H := change_commits_new_content_version docC1b ⟨"A", "Alice"⟩ "n" "m1" "s1" 7
    (by decide) (by decide)
  exact ⟨H.1, H.2 (by decide)⟩

/-- C3 counterexample: S is neither owner nor collaborator of `docC3`, yet a
`document-change` from S is applied (content overwritten, two versions
committed, update broadcast), and the version read APIs return the data to
any caller — they take no requesting user at all. -/
theorem stranger_write_and_reads_not_denied :
    hasAccess docC3 "S" = false ∧
    (mapGet (documentChangeEndpoint stC3 userS "d3" "y" "m1" "s1" 2000).1.store "d3").map
      (fun d => (d.content, d.versions.length)) = some ("y", 3) ∧
    (documentChangeEndpoint stC3 userS "d3" "y" "m1" "s1" 2000).2 ≠ none ∧
    listVersionsEndpoint stC3.store "d3" = .ok "d3" [versionView vInit3] ∧
    getVersionEndpoint stC3.store "d3" "v1" = .ok (versionView vInit3) := by decide

/-- C3 amended: `join-document` and `GET /api/documents/:id` do return an
access-denied signal to a user who is neither owner nor collaborator, and the
owner always passes the owner-only collaborator-management guard; but
`document-change` applies the edit with no access check at all, and the
list-versions / get-version endpoints are unauthenticated and return the data
regardless of the caller. -/
theorem access_enforcement_mixed :
    (∀ (store : Store) (rooms : List (String × Room)) (socketId : String) (user : Principal)
        (documentId : String) (doc : Document),
      mapGet store documentId = some doc → hasAccess doc user.id = false →
      joinDocument store rooms socketId user documentId = .errAccessDenied) ∧
    (∀ (st : ServerState) (docId userId : String) (doc : Document),
      mapGet st.documentsCache docId = some doc → hasAccess doc userId = false →
      getDocumentEndpoint st docId userId = .accessDenied) ∧
    (∀ doc : Document, canManageCollaborators doc doc.ownerId = true) ∧
    (∀ (st : ServerState) (user : Principal) (documentId content manualId snapId : String)
        (now : Nat) (doc : Document),
      mapGet st.store documentId = some doc →
      (documentChangeEndpoint st user documentId content manualId snapId now).2 =
        some { content := content, updatedBy := user.name, updatedAt := now }) ∧
    (∀ (store : Store) (docId : String) (doc : Document),
      mapGet store docId = some doc →
      listVersionsEndpoint store docId = .ok docId (doc.versions.map versionView)) := by
  refine ⟨?_, ?_, ?_, ?_, ?_⟩
  · intro store rooms socketId user documentId doc hdoc hacc
    simp only [joinDocument, hdoc]
    rw [accessGuard_eq_not_hasAccess, hacc]
    rfl
  · intro st docId userId doc hdoc hacc
    simp only [getDocumentEndpoint, hdoc]
    rw [accessGuard_eq_not_hasAccess, hacc]
    rfl
  · intro doc
    simp [canManageCollaborators]
  · intro st user documentId content manualId snapId now doc hdoc
    simp only [documentChangeEndpoint, hdoc]
    rfl
  · intro store docId doc hdoc
    simp only [listVersionsEndpoint, hdoc]

theorem access_enforcement_mixed_witness :
    joinDocument stC3.store [] "sock" userS "d3" = .errAccessDenied ∧
    getDocumentEndpoint stC3 "d3" "S" = .accessDenied ∧
    canManageCollaborators docC3 docC3.ownerId = true ∧
    (documentChangeEndpoint stC3 userS "d3" "y" "m1" "s1" 2000).2 =
      some { content := "y", updatedBy := "Sam", updatedAt := 2000 } ∧
    listVersionsEndpoint stC3.store "d3" = .ok "d3" (docC3.versions.map versionView) :=
  ⟨access_enforcement_mixed.1 stC3.store [] "sock" userS "d3" docC3 (by decide) (by decide),
   access_enforcement_mixed.2.1 stC3 "d3" "S" docC3 (by decide) (by decide),
   access_enforcement_mixed.2.2.1 docC3,
   access_enforcement_mixed.2.2.2.1 stC3 userS "d3" "y" "m1" "s1" 2000 docC3 (by decide),
   access_enforcement_mixed.2.2.2.2 stC3.store "d3" docC3 (by decide)⟩

/-! ### C8 -/

/-- C8: a restore with write access and an existing target version commits a
pre-restore snapshot of the current content, then overwrites the content with
the target's; the version list grows by exactly one, subject to the 50-entry
cap; an unknown version id fails the whole operation with no state change. -/
theorem restore_safety :
    (∀ (st : ServerState) (user : Principal) (docId versionId freshId : String) (now : Nat)
        (doc : Document) (target : DocumentVersion),
      mapGet st.store docId = some doc →
      hasAccess doc user.id = true →
      doc.versions.find? (fun v => v.id == versionId) = some target →
      (restoreEndpoint st user docId versionId freshId now).2 = .restored target ∧
      ∃ doc2 : Document,
        mapGet (restoreEndpoint st user docId versionId freshId now).1.store doc.id = some doc2 ∧
        doc2.content = target.content ∧
        doc2.versions.length = min (doc.versions.length + 1) 50 ∧
        (preRestoreVersion doc user target freshId now).content = doc.content ∧
        (doc.versions.length + 1 ≤ 50 →
          preRestoreVersion doc user target freshId now ∈ doc2.versions)) ∧
    (∀ (st : ServerState) (user : Principal) (docId versionId freshId : String) (now : Nat)
        (doc : Document),
      mapGet st.store docId = some doc →
      hasAccess doc user.id = true →
      doc.versions.find? (fun v => v.id == versionId) = none →
      restoreEndpoint st user docId versionId freshId now = (st, .versionNotFound)) := by
  constructor
  · intro st user docId versionId freshId now doc target hdoc hacc hfind
    simp only [restoreEndpoint, hdoc]
    rw [accessGuard_eq_not_hasAccess, hacc]
    simp only [Bool.not_true, Bool.false_eq_true, if_false, hfind]
    refine ⟨trivial, ?_⟩
    set preV := preRestoreVersion doc user target freshId now with hpre
    set doc1 := addDocumentVersion doc preV now with hd1
    refine ⟨{ doc1 with content := target.content, updatedAt := now }, ?_, rfl, ?_, rfl, ?_⟩
    · have hid : ({ doc1 with content := target.content, updatedAt := now } : Document).id
          = doc.id := rfl
      rw [← hid]
      exact mapGet_mapSet_self _ _ _
    · show doc1.versions.length = min (doc.versions.length + 1) 50
      have hslen : (sortVersionsDesc (doc.versions ++ [preV])).length
          = doc.versions.length + 1 := by
        have := (sortVersionsDesc_perm (doc.versions ++ [preV])).length_eq
        simp only [this, List.length_append, List.length_cons, List.length_nil]
      rw [hd1, addDocumentVersion_versions]
      split
      · rename_i hlt
        rw [List.length_take, hslen]
        rw [hslen] at hlt
        omega
      · rename_i hge
        rw [hslen]
        rw [hslen] at hge
        omega
    · intro hle
      show preV ∈ doc1.versions
      exact (addDocumentVersion_perm_of_le hle).mem_iff.mpr (by simp)
  · intro st user docId versionId freshId now doc hdoc hacc hfind
    simp only [restoreEndpoint, hdoc]
    rw [accessGuard_eq_not_hasAccess, hacc]
    simp only [Bool.not_true, Bool.false_eq_true, if_false, hfind]

theorem restore_safety_witness :
    (restoreEndpoint stC8 userA8 "d8" "v1" "f1" 2000).2 = .restored vInit8 ∧
    restoreEndpoint stC8 userA8 "d8" "nope" "f1" 2000 = (stC8, .versionNotFound) :=
  ⟨(restore_safety.1 stC8 userA8 "d8" "v1" "f1" 2000 docC8 vInit8
      (by decide) (by decide) (by decide)).1,
   restore_safety.2 stC8 userA8 "d8" "nope" "f1" 2000 docC8
      (by decide) (by decide) (by decide)⟩

/-! ### C9 -/

/-- C9: after a successful content change the `document-updated` event
carrying the new content is emitted, and `io.to(documentId)` delivers it to
every socket in the room — the author (who joined the room in
`join-document`) included. -/
theorem update_broadcast_reaches_author
    (store : Store) (rooms : List (String × Room)) (st : ServerState)
    (socketId : String) (user : Principal) (documentId content manualId snapId : String)
    (now : Nat) (rooms' : List (String × Room)) (room' : Room) (doc : Document)
    (hjoin : joinDocument store rooms socketId user documentId = .joined rooms' room')
    (hdoc : mapGet st.store documentId = some doc) :
    (documentChangeEndpoint st user documentId content manualId snapId now).2 =
      some { content := content, updatedBy := user.name, updatedAt := now } ∧
    socketId ∈ room'.members ∧
    ∀ m ∈ room'.members,
      (m, ({ content := content, updatedBy := user.name, updatedAt := now } : UpdateEvent)) ∈
        documentChangeBroadcast rooms' documentId
          { content := content, updatedBy := user.name, updatedAt := now } := by
  have hev : (documentChangeEndpoint st user documentId content manualId snapId now).2 =
      some { content := content, updatedBy := user.name, updatedAt := now } := by
    simp only [documentChangeEndpoint, hdoc]
    rfl
  rcases hstore : mapGet store documentId with _ | d
  · simp only [joinDocument, hstore] at hjoin
    cases hjoin
  · simp only [joinDocument, hstore] at hjoin
    split at hjoin
    · cases hjoin
    · injection hjoin with h1 h2
      refine ⟨hev, ?_, ?_⟩
      · rw [← h2]
        simp
      · intro m hm
        have hio : ioToRecipients rooms' documentId = room'.members := by
          rw [← h1, ← h2]
          simp only [ioToRecipients, mapGet_mapSet_self]
        simp only [documentChangeBroadcast, hio]
        exact List.mem_map_of_mem _ hm

theorem update_broadcast_reaches_author_witness :
    (documentChangeEndpoint stC9 userA9 "d9" "n" "m" "s" 5).2 =
      some { content := "n", updatedBy := "Alice", updatedAt := 5 } ∧
    "sock1" ∈ roomC9.members ∧
    ("sock1", ({ content := "n", updatedBy := "Alice", updatedAt := 5 } : UpdateEvent)) ∈
      documentChangeBroadcast [("d9", roomC9)] "d9"
        { content := "n", updatedBy := "Alice", updatedAt := 5 } := by
  have H := update_broadcast_reaches_author stC9.store [] stC9 "sock1" userA9 "d9" "n" "m" "s" 5
    [("d9", roomC9)] roomC9 docC9 (by decide) (by decide)
  exact ⟨H.1, H.2.1, H.2.2 "sock1" H.2.1⟩

/-! ### C7 helper lemmas -/

theorem isAutoSnapshotBy_createManual (docX : Document) (c u un mid : String) (now : Nat) :
    isAutoSnapshotBy u (createDocumentVersion docX c u un (some "Manual save") mid now) = false := by
  have h : strIncludes "Manual save" "Auto-snapshot" = false := by decide
  simp [isAutoSnapshotBy, createDocumentVersion, h]

theorem isAutoSnapshotBy_createAuto (docX : Document) (c u un sid : String) (now : Nat) :
    isAutoSnapshotBy u (createDocumentVersion docX c u un (some "Auto-snapshot") sid now) = true := by
  have h : strIncludes "Auto-snapshot" "Auto-snapshot" = true := by decide
  simp [isAutoSnapshotBy, createDocumentVersion, h]

/-- On a newest-first list, `find?` returns a match whose `createdAt` bounds
every other match — the code's notion of the most recent auto-snapshot. -/
theorem find?_createdAt_max {p : DocumentVersion → Bool} {l : List DocumentVersion}
    (hs : List.Pairwise DescOrd l) {s : DocumentVersion} (hfind : l.find? p = some s) :
    ∀ w ∈ l, p w = true → w.createdAt ≤ s.createdAt := by
  induction l with
  | nil => cases hfind
  | cons x xs ih =>
    rcases List.pairwise_cons.mp hs with ⟨hx, hxs⟩
    by_cases hpx : p x = true
    · rw [List.find?_cons_of_pos _ hpx] at hfind
      injection hfind with he
      subst he
      intro w hw _
      rcases List.mem_cons.mp hw with rfl | hw
      · exact le_refl _
      · exact hx w hw
    · rw [List.find?_cons_of_neg _ hpx] at hfind
      intro w hw hpw
      rcases List.mem_cons.mp hw with rfl | hw
      · exact absurd hpw hpx
      · exact ih hxs hfind w hw hpw

/-- The `createAutoSnapshot` guard, characterised over a sorted version
list: it fires exactly when no auto-snapshot by this author exists or some
most-recent one is older than the cool-down window. -/
theorem shouldCreateSnapshot_iff (doc : Document) (u : String) (now : Nat)
    (hs : List.Pairwise DescOrd doc.versions) :
    shouldCreateSnapshot doc u now = true ↔
      ((∀ v ∈ doc.versions, isAutoSnapshotBy u v = false) ∨
       (∃ v ∈ doc.versions, isAutoSnapshotBy u v = true ∧
         (∀ w ∈ doc.versions, isAutoSnapshotBy u w = true → w.createdAt ≤ v.createdAt) ∧
         autoSnapshotCooldownMs < now - v.createdAt)) := by
  rcases hfind : doc.versions.find? (isAutoSnapshotBy u) with _ | s
  · have hall := List.find?_eq_none.mp hfind
    simp only [Bool.not_eq_true] at hall
    simp only [shouldCreateSnapshot, hfind]
    constructor
    · intro _
      exact Or.inl hall
    · intro _
      trivial
  · have hps : isAutoSnapshotBy u s = true := List.find?_some hfind
    have hms : s ∈ doc.versions := List.mem_of_find?_eq_some hfind
    have hmax := find?_createdAt_max hs hfind
    simp only [shouldCreateSnapshot, hfind, decide_eq_true_eq]
    constructor
    · intro hcool
      exact Or.inr ⟨s, hms, hps, hmax, hcool⟩
    · rintro (hall | ⟨v, hv, hpv, hvmax, hcool⟩)
      · rw [hall s hms] at hps
        cases hps
      · have h1 : s.createdAt ≤ v.createdAt := hvmax s hms hps
        have h2 : v.createdAt ≤ s.createdAt := hmax v hv hpv
        have hvs : v.createdAt = s.createdAt := le_antisymm h2 h1
        rw [← hvs]
        exact hcool

/-- The guard condition is invariant under replacing the version list with
one that has the same set of matches. -/
theorem snapshot_cond_mp {A B : List DocumentVersion} {p : DocumentVersion → Bool}
    {cool now : Nat}
    (hab : ∀ x, x ∈ A → p x = true → x ∈ B)
    (hba : ∀ x, x ∈ B → p x = true → x ∈ A) :
    ((∀ v ∈ A, p v = false) ∨
     (∃ v ∈ A, p v = true ∧ (∀ w ∈ A, p w = true → w.createdAt ≤ v.createdAt) ∧
       cool < now - v.createdAt)) →
    ((∀ v ∈ B, p v = false) ∨
     (∃ v ∈ B, p v = true ∧ (∀ w ∈ B, p w = true → w.createdAt ≤ v.createdAt) ∧
       cool < now - v.createdAt)) := by
  rintro (hall | ⟨v, hv, hpv, hvmax, hcool⟩)
  · left
    intro w hw
    cases hpw : p w with
    | false => rfl
    | true =>
      have hfalse := hall w (hba w hw hpw)
      rw [hpw] at hfalse
      exact hfalse
  · right
    exact ⟨v, hab v hv hpv, hpv,
      fun w hw hpw => hvmax w (hba w hw hpw) hpw, hcool⟩

theorem autoCount_setContent (docX : Document) (c : String) (t : Nat) (u : String) :
    autoCount { docX with content := c, updatedAt := t } u = autoCount docX u := rfl

/-- Version-count equation for a content-changing `document-change`: the
count of auto-snapshots grows by one exactly when the guard fires, provided
the 50-entry cap is not hit. -/
theorem autoCount_documentChangeCore (doc : Document) (user : Principal)
    (content manualId snapId : String) (now : Nat)
    (hcontent : content ≠ doc.content) (hlen : doc.versions.length + 2 ≤ 50) :
    autoCount (documentChangeCore doc user content manualId snapId now).1 user.id =
      autoCount doc user.id +
        (if shouldCreateSnapshot
              (addDocumentVersion doc
                (createDocumentVersion doc content user.id user.name (some "Manual save") manualId now)
                now)
              user.id now = true
         then 1 else 0) := by
  have hlen1 : doc.versions.length + 1 ≤ 50 := by omega
  set manualV := createDocumentVersion doc content user.id user.name (some "Manual save") manualId now with hm
  set doc' := addDocumentVersion doc manualV now with hd
  have hmanualFalse : isAutoSnapshotBy user.id manualV = false := by
    rw [hm]
    exact isAutoSnapshotBy_createManual doc content user.id user.name manualId now
  have hcount' : autoCount doc' user.id = autoCount doc user.id := by
    show doc'.versions.countP (isAutoSnapshotBy user.id) = _
    rw [hd, addDocumentVersion_countP_of_le hlen1, hmanualFalse]
    simp [autoCount]
  have hlen' : doc'.versions.length + 1 ≤ 50 := by
    have hl := (@addDocumentVersion_perm_of_le doc manualV now 50 hlen1).length_eq
    rw [hd]
    rw [hl, List.length_append, List.length_cons, List.length_nil]
    omega
  simp only [documentChangeCore, if_pos hcontent, ← hm, ← hd]
  rw [autoCount_setContent]
  unfold createAutoSnapshot
  split
  · show (addDocumentVersion doc' _ now).versions.countP (isAutoSnapshotBy user.id) = _
    rw [addDocumentVersion_countP_of_le hlen']
    have hsnapTrue : isAutoSnapshotBy user.id
        (createDocumentVersion doc' doc'.content user.id user.name (some "Auto-snapshot") snapId now)
        = true :=
      isAutoSnapshotBy_createAuto doc' doc'.content user.id user.name snapId now
    rw [hsnapTrue]
    rw [← autoCount, hcount']
    simp
  · rw [Nat.add_zero]
    exact hcount'

/-! ### C7 -/

/-- C7: on a content-changing edit an auto-snapshot is created iff no prior
auto-snapshot by that author exists or a most recent one is older than 30
minutes; hence (below the cap) two content-changing edits by the same author
within 30 minutes yield exactly one auto-snapshot and two edits more than 30
minutes apart yield two. -/
theorem autoSnapshot_cooldown :
    (∀ (doc : Document) (user : Principal) (content manualId snapId : String) (now : Nat),
      content ≠ doc.content → doc.versions.length + 2 ≤ 50 →
      (autoCount (documentChangeCore doc user content manualId snapId now).1 user.id
          = autoCount doc user.id + 1 ↔
        ((∀ v ∈ doc.versions, isAutoSnapshotBy user.id v = false) ∨
         (∃ v ∈ doc.versions, isAutoSnapshotBy user.id v = true ∧
           (∀ w ∈ doc.versions, isAutoSnapshotBy user.id w = true → w.createdAt ≤ v.createdAt) ∧
           autoSnapshotCooldownMs < now - v.createdAt)))) ∧
    (∀ (doc0 : Document) (user : Principal) (c1 c2 i1 i2 i3 i4 : String) (t1 t2 : Nat),
      doc0.versions.length + 4 ≤ 50 →
      (∀ v ∈ doc0.versions, isAutoSnapshotBy user.id v = false) →
      c1 ≠ doc0.content → c2 ≠ c1 →
      (t2 - t1 ≤ autoSnapshotCooldownMs →
        autoCount ((documentChangeCore ((documentChangeCore doc0 user c1 i1 i2 t1).1)
            user c2 i3 i4 t2).1) user.id = 1) ∧
      (autoSnapshotCooldownMs < t2 - t1 →
        autoCount ((documentChangeCore ((documentChangeCore doc0 user c1 i1 i2 t1).1)
            user c2 i3 i4 t2).1) user.id = 2)) := by
  constructor
  · intro doc user content manualId snapId now hcontent hlen
    have hlen1 : doc.versions.length + 1 ≤ 50 := by omega
    have hcnt := autoCount_documentChangeCore doc user content manualId snapId now hcontent hlen
    set manualV := createDocumentVersion doc content user.id user.name (some "Manual save") manualId now with hm
    set doc' := addDocumentVersion doc manualV now with hd
    have hsorted : List.Pairwise DescOrd doc'.versions := by
      rw [hd]; exact addDocumentVersion_sorted doc manualV now 50
    have hperm : doc'.versions.Perm (doc.versions ++ [manualV]) := by
      rw [hd]; exact addDocumentVersion_perm_of_le hlen1
    have hmanualFalse : isAutoSnapshotBy user.id manualV = false := by
      rw [hm]; exact isAutoSnapshotBy_createManual doc content user.id user.name manualId now
    have hab : ∀ x, x ∈ doc'.versions → isAutoSnapshotBy user.id x = true → x ∈ doc.versions := by
      intro x hx hpx
      rcases List.mem_append.mp (hperm.mem_iff.mp hx) with hx' | hx'
      · exact hx'
      · rw [List.mem_singleton.mp hx'] at hpx
        rw [hmanualFalse] at hpx
        cases hpx
    have hba : ∀ x, x ∈ doc.versions → isAutoSnapshotBy user.id x = true → x ∈ doc'.versions := by
      intro x hx _
      exact hperm.mem_iff.mpr (List.mem_append_left _ hx)
    constructor
    · intro hplus
      have hg : shouldCreateSnapshot doc' user.id now = true := by
        by_contra hng
        rw [hcnt, if_neg hng] at hplus
        omega
      exact snapshot_cond_mp hab hba ((shouldCreateSnapshot_iff doc' user.id now hsorted).mp hg)
    · intro hcond
      have hg : shouldCreateSnapshot doc' user.id now = true :=
        (shouldCreateSnapshot_iff doc' user.id now hsorted).mpr (snapshot_cond_mp hba hab hcond)
      rw [hcnt, if_pos hg]
  · intro doc0 user c1 c2 i1 i2 i3 i4 t1 t2 hlen0 hnoauto hc1 hc2
    have hlen01 : doc0.versions.length + 1 ≤ 50 := by omega
    set manual1 := createDocumentVersion doc0 c1 user.id user.name (some "Manual save") i1 t1 with hm1
    set doc0' := addDocumentVersion doc0 manual1 t1 with hd0
    have hperm0 : doc0'.versions.Perm (doc0.versions ++ [manual1]) := by
      rw [hd0]; exact addDocumentVersion_perm_of_le hlen01
    have hman1 : isAutoSnapshotBy user.id manual1 = false := by
      rw [hm1]; exact isAutoSnapshotBy_createManual doc0 c1 user.id user.name i1 t1
    have hnomatch : ∀ x ∈ doc0'.versions, ¬ isAutoSnapshotBy user.id x = true := by
      intro x hx hpx
      rcases List.mem_append.mp (hperm0.mem_iff.mp hx) with hx' | hx'
      · rw [hnoauto x hx'] at hpx; cases hpx
      · rw [List.mem_singleton.mp hx'] at hpx
        rw [hman1] at hpx; cases hpx
    have hg1 : shouldCreateSnapshot doc0' user.id t1 = true := by
      unfold shouldCreateSnapshot
      rw [List.find?_eq_none.mpr hnomatch]
    set snap1 := createDocumentVersion doc0' doc0'.content user.id user.name (some "Auto-snapshot") i2 t1 with hs1
    have hsnap1True : isAutoSnapshotBy user.id snap1 = true := by
      rw [hs1]; exact isAutoSnapshotBy_createAuto doc0' doc0'.content user.id user.name i2 t1
    have hsnap1T : snap1.createdAt = t1 := by rw [hs1]; rfl
    set doc1T : Document :=
      { addDocumentVersion doc0' snap1 t1 with content := c1, updatedAt := t1 } with hT
    have hdc1 : (documentChangeCore doc0 user c1 i1 i2 t1).1 = doc1T := by
      rw [hT]
      simp only [documentChangeCore]
      rw [if_pos hc1]
      rw [← hm1, ← hd0]
      simp only [createAutoSnapshot]
      rw [if_pos hg1]
    have hd1len : doc0'.versions.length + 1 ≤ 50 := by
      have hl := hperm0.length_eq
      rw [List.length_append, List.length_cons, List.length_nil] at hl
      omega
    have hperm1 : (addDocumentVersion doc0' snap1 t1).versions.Perm (doc0'.versions ++ [snap1]) :=
      addDocumentVersion_perm_of_le hd1len
    have hmem_snap1 : snap1 ∈ (addDocumentVersion doc0' snap1 t1).versions :=
      hperm1.mem_iff.mpr (List.mem_append_right _ (List.mem_singleton_self _))
    have honly : ∀ x ∈ (addDocumentVersion doc0' snap1 t1).versions,
        isAutoSnapshotBy user.id x = true → x = snap1 := by
      intro x hx hpx
      rcases List.mem_append.mp (hperm1.mem_iff.mp hx) with hx' | hx'
      · exact absurd hpx (hnomatch x hx')
      · exact List.mem_singleton.mp hx'
    have hcount1 : autoCount doc1T user.id = 1 := by
      rw [hT, autoCount_setContent]
      show (addDocumentVersion doc0' snap1 t1).versions.countP _ = 1
      rw [addDocumentVersion_countP_of_le hd1len, hsnap1True]
      have hz : doc0'.versions.countP (isAutoSnapshotBy user.id) = 0 :=
        List.countP_eq_zero.mpr hnomatch
      rw [hz]
      simp
    have hc2' : c2 ≠ doc1T.content := hc2
    have hTversions : doc1T.versions = (addDocumentVersion doc0' snap1 t1).versions := by
      rw [hT]
    have hlenT : doc1T.versions.length + 2 ≤ 50 := by
      rw [hTversions]
      have hl1 := hperm1.length_eq
      rw [List.length_append, List.length_cons, List.length_nil] at hl1
      have hl0 := hperm0.length_eq
      rw [List.length_append, List.length_cons, List.length_nil] at hl0
      omega
    have hcnt2 := autoCount_documentChangeCore doc1T user c2 i3 i4 t2 hc2' hlenT
    have hlenT1 : doc1T.versions.length + 1 ≤ 50 := by omega
    set manual2 := createDocumentVersion doc1T c2 user.id user.name (some "Manual save") i3 t2 with hm2
    set doc1' := addDocumentVersion doc1T manual2 t2 with hd1
    have hman2 : isAutoSnapshotBy user.id manual2 = false := by
      rw [hm2]; exact isAutoSnapshotBy_createManual doc1T c2 user.id user.name i3 t2
    have hperm2 : doc1'.versions.Perm (doc1T.versions ++ [manual2]) := by
      rw [hd1]; exact addDocumentVersion_perm_of_le hlenT1
    have hsorted2 : List.Pairwise DescOrd doc1'.versions := by
      rw [hd1]; exact addDocumentVersion_sorted doc1T manual2 t2 50
    have hmem2 : snap1 ∈ doc1'.versions := by
      refine hperm2.mem_iff.mpr (List.mem_append_left _ ?_)
      rw [hTversions]
      exact hmem_snap1
    have honly2 : ∀ x ∈ doc1'.versions, isAutoSnapshotBy user.id x = true → x = snap1 := by
      intro x hx hpx
      rcases List.mem_append.mp (hperm2.mem_iff.mp hx) with hx' | hx'
      · rw [hTversions] at hx'
        exact honly x hx' hpx
      · rw [List.mem_singleton.mp hx'] at hpx
        rw [hman2] at hpx; cases hpx
    have hcondIff : shouldCreateSnapshot doc1' user.id t2 = true ↔
        autoSnapshotCooldownMs < t2 - t1 := by
      rw [shouldCreateSnapshot_iff doc1' user.id t2 hsorted2]
      constructor
      · rintro (hall | ⟨v, hv, hpv, _, hcool⟩)
        · rw [hall snap1 hmem2] at hsnap1True; cases hsnap1True
        · rw [honly2 v hv hpv, hsnap1T] at hcool
          exact hcool
      · intro hcool
        refine Or.inr ⟨snap1, hmem2, hsnap1True, ?_, ?_⟩
        · intro w hw hpw
          rw [honly2 w hw hpw]
        · rw [hsnap1T]; exact hcool
    constructor
    · intro hwithin
      have hng : ¬ shouldCreateSnapshot doc1' user.id t2 = true := by
        intro hgg
        have := hcondIff.mp hgg
        omega
      rw [hdc1, hcnt2, if_neg hng, hcount1]
    · intro hover
      have hg2 : shouldCreateSnapshot doc1' user.id t2 = true := hcondIff.mpr hover
      rw [hdc1, hcnt2, if_pos hg2, hcount1]

theorem autoSnapshot_cooldown_witness :
    autoCount (documentChangeCore docC7w ⟨"A", "Alice"⟩ "n" "m1" "s1" 7).1 "A"
      = autoCount docC7w "A" + 1 ∧
    autoCount ((documentChangeCore ((documentChangeCore docC7w ⟨"A", "Alice"⟩ "a" "i1" "i2" 0).1)
        ⟨"A", "Alice"⟩ "b" "i3" "i4" 10).1) "A" = 1 ∧
    autoCount ((documentChangeCore ((documentChangeCore docC7w ⟨"A", "Alice"⟩ "a" "i1" "i2" 0).1)
        ⟨"A", "Alice"⟩ "b" "i3" "i4" 2000000).1) "A" = 2 :=
  ⟨(autoSnapshot_cooldown.1 docC7w ⟨"A", "Alice"⟩ "n" "m1" "s1" 7 (by decide) (by decide)).mpr
      (Or.inl (by decide)),
   (autoSnapshot_cooldown.2 docC7w ⟨"A", "Alice"⟩ "a" "b" "i1" "i2" "i3" "i4" 0 10
      (by decide) (by decide) (by decide) (by decide)).1 (by decide),
   (autoSnapshot_cooldown.2 docC7w ⟨"A", "Alice"⟩ "a" "b" "i1" "i2" "i3" "i4" 0 2000000
      (by decide) (by decide) (by decide) (by decide)).2 (by decide)⟩

end Backend
